import Mathlib

/-!
Verification of the `kat` utility (a `cut`-style field/character/byte
extractor) against its natural-language specification.

The Rust source (src/lib.rs, src/main.rs) is shallowly embedded below:

* Rust `&str` values flowing through the range-list parser are modelled as
  `List Char` (Rust iterates them per `char`); error messages are Lean
  `String`s, carrying the exact text the Rust code formats.
* `usize` is modelled as `Nat` with an explicit overflow bound of
  `2 ^ 64 - 1` inside the model of Rust's `str::parse::<usize>` (the only
  place overflow can occur).
* Fallible Rust functions returning `Result<T, Box<dyn Error>>` are
  modelled as `Except String T`.
* The `HashSet<usize>` built by `unique_indices` is modelled as a
  `Finset Nat`.
-/

namespace Kat

/-- The single-quote character, used when formatting illegal-value errors
(written via its code point to keep the string literals plain). -/
def squote : String := String.singleton (Char.ofNat 39)

/-- Model of Rust `str::split(sep)` at the character-list level:
splitting on every occurrence of `sep`, keeping empty pieces, and
producing `[[]]` on the empty string — exactly Rust's semantics. -/
def splitChar (sep : Char) : List Char → List (List Char)
  | [] => [[]]
  | c :: rest =>
    if c = sep then
      [] :: splitChar sep rest
    else
      match splitChar sep rest with
      | [] => [[c]]
      | t :: ts => (c :: t) :: ts

/-- Model of Rust `str::starts_with(c)` for a single character. -/
def startsWithChar (s : List Char) (c : Char) : Bool :=
  s.head? = some c

/-- Model of Rust `str::ends_with(c)` for a single character. -/
def endsWithChar (s : List Char) (c : Char) : Bool :=
  s.getLast? = some c

/-- The error text `format!("kat: illegal list value: '{}'", v)` from
`parse_positions` in src/lib.rs. -/
def illegalListValue (v : List Char) : String :=
  "kat: illegal list value: " ++ squote ++ String.mk v ++ squote

/-- The error text for a zero list value in `parse_num` (src/lib.rs). -/
def zeroMsg : String := "kat: list values may not include zero"

/-- The error text for an inverted range in `parse_positions`
(src/lib.rs), formatting the two parsed bounds. -/
def rangeMsg (start stop : Nat) : String :=
  "First number in range (" ++ Nat.repr start ++
    ") must be lower than second number (" ++ Nat.repr stop ++ ")"

/-- `usize::MAX`; the target is modelled as a 64-bit platform. -/
def usizeMax : Nat := 2 ^ 64 - 1

/-- The numeric value of a string of ASCII digits, most significant
first. -/
def digitsToNat (t : List Char) : Nat :=
  t.foldl (fun a c => a * 10 + (c.toNat - 48)) 0

/-- Drop the optional leading `+` that Rust's unsigned `from_str`
accepts. -/
def stripPlus : List Char → List Char
  | [] => []
  | c :: rest => if c = '+' then rest else c :: rest

/-- Model of Rust `str::parse::<usize>()`: an optional leading `+`
followed by one or more ASCII digits, failing on overflow past
`usize::MAX`. -/
def rustParseUsize (s : List Char) : Option Nat :=
  if (stripPlus s).isEmpty then none
  else if (stripPlus s).all (fun c => c.isDigit) then
    if digitsToNat (stripPlus s) ≤ usizeMax then some (digitsToNat (stripPlus s))
    else none
  else none

/-- Model of the `parse_num` closure inside `parse_positions`
(src/lib.rs): reject a leading or trailing sign, then parse as `usize`,
then reject zero. -/
def parse_num (s : List Char) : Except String Nat :=
  if startsWithChar s '-' || startsWithChar s '+' ||
      endsWithChar s '-' || endsWithChar s '+' then
    Except.error (illegalListValue s)
  else
    match rustParseUsize s with
    | none => Except.error (illegalListValue s)
    | some num => if num = 0 then Except.error zeroMsg else Except.ok num

/-- Model of one iteration of the `for part in arg.split(',')` loop body
of `parse_positions` (src/lib.rs): reject a part that starts or ends
with `-`, then split it on `-` into one or two numeric components,
producing the half-open range the loop pushes. -/
def parsePositionsItem (part : List Char) : Except String (Nat × Nat) :=
  if startsWithChar part '-' || endsWithChar part '-' then
    Except.error (illegalListValue part)
  else
    match splitChar '-' part with
    | [single] =>
      match parse_num single with
      | Except.error e => Except.error e
      | Except.ok n => Except.ok (n - 1, n)
    | [first, second] =>
      match parse_num first with
      | Except.error e => Except.error e
      | Except.ok start =>
        match parse_num second with
        | Except.error e => Except.error e
        | Except.ok stop =>
          if stop ≤ start then
            Except.error (rangeMsg start stop)
          else
            Except.ok (start - 1, stop)
    | _ => Except.error (illegalListValue part)

/-- The `for` loop of `parse_positions`, pushing one range per comma
part and stopping at the first error. -/
def parseParts : List (List Char) → Except String (List (Nat × Nat))
  | [] => Except.ok []
  | part :: rest =>
    match parsePositionsItem part with
    | Except.error e => Except.error e
    | Except.ok r =>
      match parseParts rest with
      | Except.error e => Except.error e
      | Except.ok rs => Except.ok (r :: rs)

/-- Model of `parse_positions` (src/lib.rs): reject an empty argument or
a leading/trailing comma naming the whole argument, then process each
comma-separated part in order. A `Range<usize>` is modelled as a
`Nat × Nat` pair `(start, stop)` denoting `[start, stop)`. -/
def parse_positions (arg : List Char) : Except String (List (Nat × Nat)) :=
  if arg.isEmpty || startsWithChar arg ',' || endsWithChar arg ',' then
    Except.error (illegalListValue arg)
  else
    parseParts (splitChar ',' arg)

/-- UTF-8 encoding of one scalar value, as Rust stores `char`s in a
`String` (`str::as_bytes` exposes exactly these bytes). -/
def utf8EncodeChar (c : Char) : List Nat :=
  let n := c.toNat
  if n < 0x80 then
    [n]
  else if n < 0x800 then
    [0xC0 + n / 0x40, 0x80 + n % 0x40]
  else if n < 0x10000 then
    [0xE0 + n / 0x1000, 0x80 + (n / 0x40) % 0x40, 0x80 + n % 0x40]
  else
    [0xF0 + n / 0x40000, 0x80 + (n / 0x1000) % 0x40,
      0x80 + (n / 0x40) % 0x40, 0x80 + n % 0x40]

/-- The byte sequence of a Rust `String` holding the given characters. -/
def utf8Encode : List Char → List Nat
  | [] => []
  | c :: rest => utf8EncodeChar c ++ utf8Encode rest

/-- U+FFFD, the replacement character that lossy decoding substitutes. -/
def replChar : Char := Char.ofNat 0xFFFD

/-- A byte is an acceptable continuation byte within `[lo, hi]`. -/
def contOk (lo hi b : Nat) : Bool :=
  lo ≤ b && b ≤ hi

/-- Model of Rust `String::from_utf8_lossy` on a byte sequence: decode
maximal valid UTF-8 sequences and substitute U+FFFD for each maximal
invalid subpart (per-byte for an invalid lead, after the valid prefix of
a truncated sequence, and once for an incomplete sequence at the end),
exactly as `std` documents. -/
def utf8DecodeLossy : List Nat → List Char
  | [] => []
  | b :: bs =>
    if b < 0x80 then
      Char.ofNat b :: utf8DecodeLossy bs
    else if b < 0xC2 then
      replChar :: utf8DecodeLossy bs
    else if b < 0xE0 then
      match bs with
      | [] => [replChar]
      | b1 :: bs1 =>
        if contOk 0x80 0xBF b1 then
          Char.ofNat ((b - 0xC0) * 0x40 + (b1 - 0x80)) :: utf8DecodeLossy bs1
        else
          replChar :: utf8DecodeLossy (b1 :: bs1)
    else if b < 0xF0 then
      match bs with
      | [] => [replChar]
      | b1 :: bs1 =>
        if contOk (if b = 0xE0 then 0xA0 else 0x80)
            (if b = 0xED then 0x9F else 0xBF) b1 then
          match bs1 with
          | [] => [replChar]
          | b2 :: bs2 =>
            if contOk 0x80 0xBF b2 then
              Char.ofNat ((b - 0xE0) * 0x1000 + (b1 - 0x80) * 0x40 + (b2 - 0x80)) ::
                utf8DecodeLossy bs2
            else
              replChar :: utf8DecodeLossy (b2 :: bs2)
        else
          replChar :: utf8DecodeLossy (b1 :: bs1)
    else if b < 0xF5 then
      match bs with
      | [] => [replChar]
      | b1 :: bs1 =>
        if contOk (if b = 0xF0 then 0x90 else 0x80)
            (if b = 0xF4 then 0x8F else 0xBF) b1 then
          match bs1 with
          | [] => [replChar]
          | b2 :: bs2 =>
            if contOk 0x80 0xBF b2 then
              match bs2 with
              | [] => [replChar]
              | b3 :: bs3 =>
                if contOk 0x80 0xBF b3 then
                  Char.ofNat ((b - 0xF0) * 0x40000 + (b1 - 0x80) * 0x1000 +
                      (b2 - 0x80) * 0x40 + (b3 - 0x80)) :: utf8DecodeLossy bs3
                else
                  replChar :: utf8DecodeLossy (b3 :: bs3)
            else
              replChar :: utf8DecodeLossy (b2 :: bs2)
        else
          replChar :: utf8DecodeLossy (b1 :: bs1)
    else
      replChar :: utf8DecodeLossy bs

/-- Model of the delimiter handling in `parse_config` (src/lib.rs): the
argument extraction itself is done by `clap` (an external collaborator);
the code under verification checks `delimiter.len() != 1` — Rust's
`str::len`, i.e. the UTF-8 byte length — and on success stores
`delimiter.bytes().next().unwrap()`, the first byte. -/
def parse_config_delimiter (delimiter : List Char) : Except String Nat :=
  if (utf8Encode delimiter).length ≠ 1 then
    Except.error ("kat: bad delimiter")
  else
    Except.ok ((utf8Encode delimiter).headD 0)

/-- Model of the `unique_indices` closure in `process_reader`
(src/lib.rs): every range is expanded to its member integers
(`Range<usize>` iteration yields `start, start+1, …, stop-1`) and the
results are collected into a `HashSet`, modelled as a `Finset`. -/
def unique_indices (positions : List (Nat × Nat)) : Finset Nat :=
  (positions.flatMap (fun r => List.range' r.1 (r.2 - r.1))).toFinset

/-- The common shape of the three extraction loops in `process_reader`
(src/lib.rs): enumerate the elements of a line starting at index `k`
and keep those whose index is in `all_pos`. -/
def selectIdx {α : Type} (all_pos : Finset Nat) : Nat → List α → List α
  | _, [] => []
  | k, x :: rest =>
    if k ∈ all_pos then x :: selectIdx all_pos (k + 1) rest
    else selectIdx all_pos (k + 1) rest

/-- Splitting a record line into fields on the delimiter byte. The csv
crate's record reader is an external collaborator (spec §1); it is
modelled as a plain single-byte-delimiter split without quoting. -/
def csvSplitRecord (delimiter : Nat) (line : List Char) : List (List Char) :=
  splitChar (Char.ofNat delimiter) line

/-- Re-serialising the retained fields of one record. The csv crate's
writer (`write_field` per retained field, then `write_record(None)`) is
an external collaborator; it is modelled as joining the fields with the
delimiter byte, which in particular writes an empty line when no field
was retained. -/
def csvJoinRecord (delimiter : Nat) (fields : List (List Char)) : List Char :=
  List.intercalate [Char.ofNat delimiter] fields

/-- The per-line body of the `Selector::Bytes` arm of `process_reader`
(src/lib.rs): keep the bytes of the line whose zero-based offset is in
`all_pos`, then decode them lossily. -/
def bytesLine (all_pos : Finset Nat) (line : List Char) : List Char :=
  utf8DecodeLossy (selectIdx all_pos 0 (utf8Encode line))

/-- The per-line body of the `Selector::Chars` arm of `process_reader`
(src/lib.rs): keep the characters of the line whose zero-based
code-point index is in `all_pos`. -/
def charsLine (all_pos : Finset Nat) (line : List Char) : List Char :=
  selectIdx all_pos 0 line

/-- The per-record body of the `Selector::Fields` arm of
`process_reader` (src/lib.rs): keep the fields whose zero-based column
index is in `all_pos` and re-serialise them. -/
def fieldsLine (delimiter : Nat) (all_pos : Finset Nat) (line : List Char) : List Char :=
  csvJoinRecord delimiter (selectIdx all_pos 0 (csvSplitRecord delimiter line))

/-- The `Selector` enum of src/lib.rs. -/
inductive Selector : Type
  | Bytes (positions : List (Nat × Nat))
  | Chars (positions : List (Nat × Nat))
  | Fields (positions : List (Nat × Nat))

/-- The `Config` struct of src/lib.rs. -/
structure Config : Type where
  files : List String
  selector : Selector
  delimiter : Nat

/-- One input source as seen by `process_reader`: `reader.lines()` (or
the csv record iterator) yields a sequence of results, each either a
line/record or a read error. -/
abbrev Reader : Type := List (Except String (List Char))

/-- The `for result in … { let line = result?; … println!(…) }` loops of
`process_reader` (src/lib.rs): returns the lines printed to stdout and
either success or the first read error, which aborts the loop (lines
printed before it are kept). -/
def lineLoop (f : List Char → List Char) :
    List (Except String (List Char)) → List (List Char) × Except String Unit
  | [] => ([], Except.ok ())
  | Except.error e :: _ => ([], Except.error e)
  | Except.ok line :: rest =>
    let r := lineLoop f rest
    (f line :: r.1, r.2)

/-- Model of `process_reader` (src/lib.rs): dispatch on the selector,
build the index set once, and run the per-line loop. -/
def process_reader (reader : Reader) (config : Config) :
    List (List Char) × Except String Unit :=
  match config.selector with
  | Selector.Bytes positions => lineLoop (bytesLine (unique_indices positions)) reader
  | Selector.Chars positions => lineLoop (charsLine (unique_indices positions)) reader
  | Selector.Fields positions =>
    lineLoop (fieldsLine config.delimiter (unique_indices positions)) reader

/-- The observable outcome of `run`: stdout lines, stderr lines emitted
by `run` itself, and its returned `CliResult`. -/
structure RunOutput : Type where
  stdout : List (List Char)
  stderr : List String
  result : Except String Unit

/-- The `for file in &config.files` loop of `run` (src/lib.rs): an open
failure is reported to stderr as `"{file}: {e}"` and the loop continues;
an opened reader is fed to `process_reader`, whose error is propagated
by `?`, aborting the loop. The file system is a parameter `env` mapping
a file name to its open result. -/
def runLoop (env : String → Except String Reader) (config : Config) :
    List String → RunOutput
  | [] => ⟨[], [], Except.ok ()⟩
  | file :: rest =>
    match env file with
    | Except.error e =>
      let r := runLoop env config rest
      ⟨r.stdout, (file ++ ": " ++ e) :: r.stderr, r.result⟩
    | Except.ok reader =>
      let p := process_reader reader config
      match p.2 with
      | Except.error e => ⟨p.1, [], Except.error e⟩
      | Except.ok _ =>
        let r := runLoop env config rest
        ⟨p.1 ++ r.stdout, r.stderr, r.result⟩

/-- Model of `run` (src/lib.rs). -/
def run (env : String → Except String Reader) (config : Config) : RunOutput :=
  runLoop env config config.files

/-! ### Supporting lemmas -/

theorem splitChar_ne_nil (sep : Char) (s : List Char) : splitChar sep s ≠ [] := by
  cases s with
  | nil => simp [splitChar]
  | cons c rest =>
    simp only [splitChar]
    split
    · simp
    · split <;> simp

theorem splitChar_eq_self (sep : Char) (s : List Char) (h : ∀ c ∈ s, c ≠ sep) :
    splitChar sep s = [s] := by
  induction s with
  | nil => rfl
  | cons c rest ih =>
    have hc : c ≠ sep := h c (by simp)
    have hr := ih (fun x hx => h x (by simp [hx]))
    simp [splitChar, if_neg hc, hr]

theorem splitChar_append (sep : Char) (a b : List Char) :
    splitChar sep (a ++ sep :: b) = splitChar sep a ++ splitChar sep b := by
  induction a with
  | nil => simp [splitChar]
  | cons c a ih =>
    by_cases hc : c = sep
    · subst hc
      simp [splitChar, ih]
    · rw [List.cons_append]
      simp only [splitChar, if_neg hc, ih]
      cases ha : splitChar sep a with
      | nil => exact absurd ha (splitChar_ne_nil sep a)
      | cons t ts => simp

theorem startsWithChar_eq_false (s : List Char) (x : Char) (h : ∀ c ∈ s, c ≠ x) :
    startsWithChar s x = false := by
  cases s with
  | nil => rfl
  | cons c rest =>
    simp only [startsWithChar, List.head?_cons]
    simpa using h c (by simp)

theorem endsWithChar_eq_false (s : List Char) (x : Char) (h : ∀ c ∈ s, c ≠ x) :
    endsWithChar s x = false := by
  cases hg : s.getLast? with
  | none => simp [endsWithChar, hg]
  | some c =>
    have := h c (List.mem_of_mem_getLast? hg)
    simp [endsWithChar, hg, this]

theorem isDigit_ne_comma (c : Char) (h : c.isDigit = true) : c ≠ ',' := by
  rintro rfl
  exact absurd h (by decide)

theorem isDigit_ne_dash (c : Char) (h : c.isDigit = true) : c ≠ '-' := by
  rintro rfl
  exact absurd h (by decide)

theorem parse_num_ok (s : List Char) (n : Nat) (h : parse_num s = Except.ok n) :
    s ≠ [] ∧ (∀ c ∈ s, c.isDigit = true) ∧ 1 ≤ n ∧ rustParseUsize s = some n := by
  unfold parse_num at h
  split at h
  · simp at h
  rename_i hsign
  cases hp : rustParseUsize s with
  | none => rw [hp] at h; simp at h
  | some num =>
    rw [hp] at h
    change (if num = 0 then Except.error zeroMsg else Except.ok num) = Except.ok n at h
    split at h
    · simp at h
    rename_i hnz
    obtain rfl : num = n := by simpa using h
    have hplus : ¬(s.head? = some '+') := by
      intro hh
      exact hsign (by simp [startsWithChar, hh])
    have hdig : s ≠ [] ∧ ∀ c ∈ s, c.isDigit = true := by
      have hp2 := hp
      unfold rustParseUsize at hp2
      cases s with
      | nil => simp [stripPlus] at hp2
      | cons c rest =>
        have hcplus : c ≠ '+' := fun hc => hplus (by simp [hc])
        have hstrip : stripPlus (c :: rest) = c :: rest := by
          simp [stripPlus, if_neg hcplus]
        rw [hstrip] at hp2
        cases hall : (c :: rest).all (fun x => x.isDigit) with
        | false => rw [hall] at hp2; simp at hp2
        | true =>
          refine ⟨by simp, fun x hx => ?_⟩
          simpa using List.all_eq_true.mp hall x hx
    exact ⟨hdig.1, hdig.2, by omega, rfl⟩

theorem parseParts_append (xs ys : List (List Char)) (rx ry : List (Nat × Nat))
    (hx : parseParts xs = Except.ok rx) (hy : parseParts ys = Except.ok ry) :
    parseParts (xs ++ ys) = Except.ok (rx ++ ry) := by
  induction xs generalizing rx with
  | nil =>
    simp only [parseParts] at hx
    cases hx
    simpa using hy
  | cons p ps ih =>
    simp only [parseParts] at hx ⊢
    cases hp : parsePositionsItem p with
    | error e => rw [hp] at hx; simp at hx
    | ok r =>
      rw [hp] at hx
      cases hps : parseParts ps with
      | error e => rw [hps] at hx; simp at hx
      | ok rs =>
        rw [hps] at hx
        cases hx
        simp [List.append_eq, ih rs hps]

theorem selectIdx_sublist {α : Type} (s : Finset Nat) (k : Nat) (l : List α) :
    List.Sublist (selectIdx s k l) l := by
  induction l generalizing k with
  | nil => simp [selectIdx]
  | cons x rest ih =>
    simp only [selectIdx]
    split
    · exact List.Sublist.cons₂ x (ih (k + 1))
    · exact List.Sublist.cons x (ih (k + 1))

theorem selectIdx_congr {α : Type} (s t : Finset Nat) (l : List α) (k : Nat)
    (h : ∀ i, k ≤ i → i < k + l.length → (i ∈ s ↔ i ∈ t)) :
    selectIdx s k l = selectIdx t k l := by
  induction l generalizing k with
  | nil => rfl
  | cons x rest ih =>
    have hk : k ∈ s ↔ k ∈ t := h k le_rfl (by simp)
    have ht := ih (k + 1)
      (fun i h1 h2 => h i (by omega) (by simp only [List.length_cons]; omega))
    simp only [selectIdx]
    by_cases hks : k ∈ s
    · rw [if_pos hks, if_pos (hk.mp hks), ht]
    · rw [if_neg hks, if_neg (fun hkt => hks (hk.mpr hkt)), ht]

theorem selectIdx_eq_filterMap {α : Type} (s : Finset Nat) (l : List α) (k : Nat) :
    selectIdx s k l =
      (List.range l.length).filterMap
        (fun i => if k + i ∈ s then l.get? i else none) := by
  induction l generalizing k with
  | nil => simp [selectIdx]
  | cons x rest ih =>
    have htail :
        List.filterMap (fun i => if k + i ∈ s then (x :: rest).get? i else none)
          ((List.range rest.length).map Nat.succ) = selectIdx s (k + 1) rest := by
      rw [List.filterMap_map, ih (k + 1)]
      apply List.filterMap_congr
      intro i _
      simp only [Function.comp_apply, Nat.succ_eq_add_one, List.get?_cons_succ]
      have harith : k + (i + 1) = k + 1 + i := by omega
      rw [harith]
    simp only [selectIdx, List.length_cons, List.range_succ_eq_map,
      List.filterMap_cons]
    by_cases hk : k ∈ s
    · simp only [Nat.add_zero, if_pos hk, List.get?_cons_zero, htail]
    · simp only [Nat.add_zero, if_neg hk, List.get?_cons_zero, htail]

theorem selectIdx_restrict {α : Type} (s : Finset Nat) (l : List α) :
    selectIdx s 0 l = selectIdx (s ∩ Finset.range l.length) 0 l := by
  apply selectIdx_congr
  intro i h0 hlen
  simp only [Finset.mem_inter, Finset.mem_range]
  constructor
  · intro hi
    exact ⟨hi, by omega⟩
  · intro hi
    exact hi.1

theorem mem_unique_indices (positions : List (Nat × Nat)) (i : Nat) :
    i ∈ unique_indices positions ↔ ∃ r ∈ positions, r.1 ≤ i ∧ i < r.2 := by
  unfold unique_indices
  rw [List.mem_toFinset, List.mem_flatMap]
  constructor
  · rintro ⟨r, hr, hi⟩
    rw [List.mem_range'_1] at hi
    exact ⟨r, hr, hi.1, by omega⟩
  · rintro ⟨r, hr, h1, h2⟩
    exact ⟨r, hr, List.mem_range'_1.mpr ⟨h1, by omega⟩⟩

theorem lineLoop_map_ok (f : List Char → List Char) (lines : List (List Char)) :
    lineLoop f (lines.map Except.ok) = (lines.map f, Except.ok ()) := by
  induction lines with
  | nil => rfl
  | cons l rest ih => simp [lineLoop, ih]

theorem parse_num_sign (s : List Char)
    (h : (startsWithChar s '-' || startsWithChar s '+' ||
      endsWithChar s '-' || endsWithChar s '+') = true) :
    parse_num s = Except.error (illegalListValue s) := by
  unfold parse_num
  rw [if_pos h]

theorem parse_num_none (s : List Char)
    (hsign : (startsWithChar s '-' || startsWithChar s '+' ||
      endsWithChar s '-' || endsWithChar s '+') = false)
    (h : rustParseUsize s = none) :
    parse_num s = Except.error (illegalListValue s) := by
  unfold parse_num
  rw [if_neg (by simp [hsign]), h]

theorem parse_num_zero (s : List Char)
    (hsign : (startsWithChar s '-' || startsWithChar s '+' ||
      endsWithChar s '-' || endsWithChar s '+') = false)
    (h : rustParseUsize s = some 0) :
    parse_num s = Except.error zeroMsg := by
  unfold parse_num
  rw [if_neg (by simp [hsign]), h]
  simp

theorem parsePositionsItem_dash (part : List Char)
    (h : (startsWithChar part '-' || endsWithChar part '-') = true) :
    parsePositionsItem part = Except.error (illegalListValue part) := by
  unfold parsePositionsItem
  rw [if_pos h]

theorem parsePositionsItem_single (s : List Char) (n : Nat)
    (h : parse_num s = Except.ok n) :
    parsePositionsItem s = Except.ok (n - 1, n) := by
  obtain ⟨hne, hdig, hn, _⟩ := parse_num_ok s n h
  have hnd : ∀ c ∈ s, c ≠ '-' := fun c hc => isDigit_ne_dash c (hdig c hc)
  have h1 : startsWithChar s '-' = false := startsWithChar_eq_false s '-' hnd
  have h2 : endsWithChar s '-' = false := endsWithChar_eq_false s '-' hnd
  unfold parsePositionsItem
  rw [h1, h2]
  simp only [Bool.or_self, Bool.false_eq_true, if_false]
  rw [splitChar_eq_self '-' s hnd]
  simp only [h]

theorem parsePositionsItem_range (a b : List Char) (n m : Nat)
    (ha : parse_num a = Except.ok n) (hb : parse_num b = Except.ok m) :
    parsePositionsItem (a ++ '-' :: b) =
      if m ≤ n then Except.error (rangeMsg n m) else Except.ok (n - 1, m) := by
  obtain ⟨hane, hadig, -, -⟩ := parse_num_ok a n ha
  obtain ⟨hbne, hbdig, -, -⟩ := parse_num_ok b m hb
  have hand : ∀ c ∈ a, c ≠ '-' := fun c hc => isDigit_ne_dash c (hadig c hc)
  have hbnd : ∀ c ∈ b, c ≠ '-' := fun c hc => isDigit_ne_dash c (hbdig c hc)
  have h1 : startsWithChar (a ++ '-' :: b) '-' = false := by
    cases a with
    | nil => exact absurd rfl hane
    | cons c arest =>
      have : c ≠ '-' := hand c (by simp)
      simp [startsWithChar, this]
  have h2 : endsWithChar (a ++ '-' :: b) '-' = false := by
    have hbl : endsWithChar b '-' = false := endsWithChar_eq_false b '-' hbnd
    cases b with
    | nil => exact absurd rfl hbne
    | cons c brest =>
      simp only [endsWithChar, List.getLast?_append, List.getLast?_cons_cons]
      simpa [endsWithChar] using hbl
  unfold parsePositionsItem
  rw [h1, h2]
  simp only [Bool.or_self, Bool.false_eq_true, if_false]
  rw [splitChar_append '-' a b, splitChar_eq_self '-' a hand,
    splitChar_eq_self '-' b hbnd]
  simp only [List.cons_append, List.nil_append]
  simp only [ha, hb]

theorem parse_positions_single_part (arg : List Char) (hne : arg ≠ [])
    (hnc : ∀ c ∈ arg, c ≠ ',') :
    parse_positions arg =
      match parsePositionsItem arg with
      | Except.error e => Except.error e
      | Except.ok r => Except.ok [r] := by
  have h1 : startsWithChar arg ',' = false := startsWithChar_eq_false arg ',' hnc
  have h2 : endsWithChar arg ',' = false := endsWithChar_eq_false arg ',' hnc
  have h3 : arg.isEmpty = false := by
    cases arg with
    | nil => exact absurd rfl hne
    | cons c rest => rfl
  unfold parse_positions
  rw [h3, h1, h2]
  simp only [Bool.or_self, Bool.false_eq_true, if_false]
  rw [splitChar_eq_self ',' arg hnc]
  cases hi : parsePositionsItem arg with
  | error e => simp [parseParts, hi]
  | ok r => simp [parseParts, hi]

theorem parse_positions_ok_parts (arg : List Char) (r : List (Nat × Nat))
    (h : parse_positions arg = Except.ok r) :
    arg ≠ [] ∧ startsWithChar arg ',' = false ∧ endsWithChar arg ',' = false ∧
      parseParts (splitChar ',' arg) = Except.ok r := by
  unfold parse_positions at h
  split at h
  · simp at h
  rename_i hcond
  refine ⟨?_, ?_, ?_, h⟩
  · intro hn
    exact hcond (by simp [hn])
  · cases hb : startsWithChar arg ',' with
    | false => rfl
    | true => exact absurd (by simp [hb]) hcond
  · cases hb : endsWithChar arg ',' with
    | false => rfl
    | true => exact absurd (by simp [hb]) hcond

theorem parse_positions_append (a b : List Char) (ra rb : List (Nat × Nat))
    (ha : parse_positions a = Except.ok ra) (hb : parse_positions b = Except.ok rb) :
    parse_positions (a ++ ',' :: b) = Except.ok (ra ++ rb) := by
  obtain ⟨hane, ha1, ha2, hpa⟩ := parse_positions_ok_parts a ra ha
  obtain ⟨hbne, hb1, hb2, hpb⟩ := parse_positions_ok_parts b rb hb
  have h1 : startsWithChar (a ++ ',' :: b) ',' = false := by
    cases a with
    | nil => exact absurd rfl hane
    | cons c arest => simpa [startsWithChar] using ha1
  have h2 : endsWithChar (a ++ ',' :: b) ',' = false := by
    cases b with
    | nil => exact absurd rfl hbne
    | cons c brest =>
      simp only [endsWithChar, List.getLast?_append, List.getLast?_cons_cons]
      simpa [endsWithChar] using hb2
  have h3 : (a ++ ',' :: b).isEmpty = false := by
    cases a with
    | nil => exact absurd rfl hane
    | cons c arest => rfl
  unfold parse_positions
  rw [h3, h1, h2]
  simp only [Bool.or_self, Bool.false_eq_true, if_false]
  rw [splitChar_append ',' a b]
  exact parseParts_append _ _ ra rb hpa hpb

theorem utf8DecodeLossy_encodeChar (c : Char) (rest : List Nat) :
    utf8DecodeLossy (utf8EncodeChar c ++ rest) = c :: utf8DecodeLossy rest := by
  have hval : Nat.isValidChar c.toNat := c.valid
  have hofn : Char.ofNat c.toNat = c := Char.ofNat_toNat c
  simp only [utf8EncodeChar]
  set n := c.toNat with hn
  unfold Nat.isValidChar at hval
  by_cases h1 : n < 0x80
  · rw [if_pos h1]
    simp only [List.cons_append, List.nil_append]
    rw [utf8DecodeLossy.eq_def]
    dsimp only
    rw [if_pos h1, hofn]
  by_cases h2 : n < 0x800
  · rw [if_neg h1, if_pos h2]
    simp only [List.cons_append, List.nil_append]
    rw [utf8DecodeLossy.eq_def]
    dsimp only
    have hb0a : ¬(0xC0 + n / 0x40 < 0x80) := by omega
    have hb0b : ¬(0xC0 + n / 0x40 < 0xC2) := by omega
    have hb0c : 0xC0 + n / 0x40 < 0xE0 := by omega
    rw [if_neg hb0a, if_neg hb0b, if_pos hb0c]
    have hcont : contOk 0x80 0xBF (0x80 + n % 0x40) = true := by
      simp only [contOk, Bool.and_eq_true, decide_eq_true_eq]
      omega
    rw [if_pos hcont]
    have hvaln : (0xC0 + n / 0x40 - 0xC0) * 0x40 + (0x80 + n % 0x40 - 0x80) = n := by
      omega
    rw [hvaln, hofn]
  by_cases h3 : n < 0x10000
  · rw [if_neg h1, if_neg h2, if_pos h3]
    simp only [List.cons_append, List.nil_append]
    rw [utf8DecodeLossy.eq_def]
    dsimp only
    have hb0a : ¬(0xE0 + n / 0x1000 < 0x80) := by omega
    have hb0b : ¬(0xE0 + n / 0x1000 < 0xC2) := by omega
    have hb0c : ¬(0xE0 + n / 0x1000 < 0xE0) := by omega
    have hb0d : 0xE0 + n / 0x1000 < 0xF0 := by omega
    rw [if_neg hb0a, if_neg hb0b, if_neg hb0c, if_pos hb0d]
    have hcont1 : contOk (if 0xE0 + n / 0x1000 = 0xE0 then 0xA0 else 0x80)
        (if 0xE0 + n / 0x1000 = 0xED then 0x9F else 0xBF)
        (0x80 + n / 0x40 % 0x40) = true := by
      simp only [contOk, Bool.and_eq_true, decide_eq_true_eq]
      constructor
      · split
        · omega
        · omega
      · split
        · omega
        · omega
    rw [if_pos hcont1]
    have hcont2 : contOk 0x80 0xBF (0x80 + n % 0x40) = true := by
      simp only [contOk, Bool.and_eq_true, decide_eq_true_eq]
      omega
    rw [if_pos hcont2]
    have hvaln : (0xE0 + n / 0x1000 - 0xE0) * 0x1000 +
        (0x80 + n / 0x40 % 0x40 - 0x80) * 0x40 + (0x80 + n % 0x40 - 0x80) = n := by
      omega
    rw [hvaln, hofn]
  · rw [if_neg h1, if_neg h2, if_neg h3]
    simp only [List.cons_append, List.nil_append]
    rw [utf8DecodeLossy.eq_def]
    dsimp only
    have hb0a : ¬(0xF0 + n / 0x40000 < 0x80) := by omega
    have hb0b : ¬(0xF0 + n / 0x40000 < 0xC2) := by omega
    have hb0c : ¬(0xF0 + n / 0x40000 < 0xE0) := by omega
    have hb0d : ¬(0xF0 + n / 0x40000 < 0xF0) := by omega
    have hb0e : 0xF0 + n / 0x40000 < 0xF5 := by omega
    rw [if_neg hb0a, if_neg hb0b, if_neg hb0c, if_neg hb0d, if_pos hb0e]
    have hcont1 : contOk (if 0xF0 + n / 0x40000 = 0xF0 then 0x90 else 0x80)
        (if 0xF0 + n / 0x40000 = 0xF4 then 0x8F else 0xBF)
        (0x80 + n / 0x1000 % 0x40) = true := by
      simp only [contOk, Bool.and_eq_true, decide_eq_true_eq]
      constructor
      · split
        · omega
        · omega
      · split
        · omega
        · omega
    rw [if_pos hcont1]
    have hcont2 : contOk 0x80 0xBF (0x80 + n / 0x40 % 0x40) = true := by
      simp only [contOk, Bool.and_eq_true, decide_eq_true_eq]
      omega
    rw [if_pos hcont2]
    have hcont3 : contOk 0x80 0xBF (0x80 + n % 0x40) = true := by
      simp only [contOk, Bool.and_eq_true, decide_eq_true_eq]
      omega
    rw [if_pos hcont3]
    have hvaln : (0xF0 + n / 0x40000 - 0xF0) * 0x40000 +
        (0x80 + n / 0x1000 % 0x40 - 0x80) * 0x1000 +
        (0x80 + n / 0x40 % 0x40 - 0x80) * 0x40 + (0x80 + n % 0x40 - 0x80) = n := by
      omega
    rw [hvaln, hofn]

theorem utf8DecodeLossy_encode (t : List Char) :
    utf8DecodeLossy (utf8Encode t) = t := by
  induction t with
  | nil => rfl
  | cons c rest ih =>
    simp only [utf8Encode]
    rw [utf8DecodeLossy_encodeChar, ih]

theorem selectIdx_empty {α : Type} (k : Nat) (l : List α) :
    selectIdx (∅ : Finset Nat) k l = [] := by
  induction l generalizing k with
  | nil => rfl
  | cons x rest ih => simp [selectIdx, ih]

theorem lineLoop_all_ok (f : List Char → List Char)
    (reader : List (Except String (List Char)))
    (h : ∀ item ∈ reader, ∃ line, item = Except.ok line) :
    (lineLoop f reader).2 = Except.ok () := by
  induction reader with
  | nil => rfl
  | cons item rest ih =>
    obtain ⟨line, rfl⟩ := h item (by simp)
    simp [lineLoop, ih (fun x hx => h x (by simp [hx]))]

theorem process_reader_all_ok (reader : Reader) (config : Config)
    (h : ∀ item ∈ reader, ∃ line, item = Except.ok line) :
    (process_reader reader config).2 = Except.ok () := by
  unfold process_reader
  cases config.selector <;> exact lineLoop_all_ok _ reader h

theorem rangeMsg_ne_illegalListValue (n m : Nat) (v : List Char) :
    rangeMsg n m ≠ illegalListValue v := by
  intro h
  have hd : (rangeMsg n m).data.head? = (illegalListValue v).data.head? := by
    rw [h]
  have h1 : (rangeMsg n m).data.head? = some 'F' := rfl
  have h2 : (illegalListValue v).data.head? = some 'k' := rfl
  rw [h1, h2] at hd
  exact absurd hd (by decide)

/-! ### The claims -/

/-- C3: for every valid range-list string, `parse_positions` maps each
single integer item `N` to the half-open range `[N-1, N)` and each range
item `N-M` to `[N-1, M)`, and the output preserves the user's item order
without merging or sorting; `"1,7,3-5"` yields exactly
`[0,1), [6,7), [2,5)` in that order. -/
theorem C3_positions_ranges_and_order :
    (∀ s n, parse_num s = Except.ok n →
      parse_positions s = Except.ok [(n - 1, n)]) ∧
    (∀ a b n m, parse_num a = Except.ok n → parse_num b = Except.ok m →
      n < m → parse_positions (a ++ '-' :: b) = Except.ok [(n - 1, m)]) ∧
    (∀ a b ra rb, parse_positions a = Except.ok ra →
      parse_positions b = Except.ok rb →
      parse_positions (a ++ ',' :: b) = Except.ok (ra ++ rb)) ∧
    parse_positions ("1,7,3-5".data) = Except.ok [(0, 1), (6, 7), (2, 5)] := by
  refine ⟨?_, ?_, parse_positions_append, by rfl⟩
  · intro s n h
    obtain ⟨hne, hdig, -, -⟩ := parse_num_ok s n h
    have hnc : ∀ c ∈ s, c ≠ ',' := fun c hc => isDigit_ne_comma c (hdig c hc)
    rw [parse_positions_single_part s hne hnc, parsePositionsItem_single s n h]
  · intro a b n m ha hb hnm
    obtain ⟨hane, hadig, -, -⟩ := parse_num_ok a n ha
    obtain ⟨hbne, hbdig, -, -⟩ := parse_num_ok b m hb
    have hnc : ∀ c ∈ (a ++ '-' :: b), c ≠ ',' := by
      intro c hc
      rcases List.mem_append.mp hc with h | h
      · exact isDigit_ne_comma c (hadig c h)
      · rcases List.mem_cons.mp h with rfl | h
        · decide
        · exact isDigit_ne_comma c (hbdig c h)
    have hne2 : (a ++ '-' :: b) ≠ [] := by simp
    rw [parse_positions_single_part _ hne2 hnc,
      parsePositionsItem_range a b n m ha hb, if_neg (by omega)]

/-- C3 witness: the single-item, range-item and order-preservation rules
applied to the spec's example `"15,19-20"`, yielding `[14,15), [18,20)`. -/
theorem C3_positions_ranges_and_order_witness :
    parse_positions ("15".data ++ ',' :: ("19".data ++ '-' :: "20".data)) =
      Except.ok [(14, 15), (18, 20)] :=
  C3_positions_ranges_and_order.2.2.1 ("15".data)
    ("19".data ++ '-' :: "20".data) [(14, 15)] [(18, 20)]
    (C3_positions_ranges_and_order.1 ("15".data) 15 (by rfl))
    (C3_positions_ranges_and_order.2.1 ("19".data) ("20".data) 19 20
      (by rfl) (by rfl) (by omega))

/-- C4: an input whose first offending component parses successfully as
the number `0` (e.g. `"0"` and `"0-1"`) fails with the distinct error
"kat: list values may not include zero", not the generic illegal-value
error; the zero check runs only after the sign checks and a successful
numeric parse (`"+0"` is an illegal value instead) and takes precedence
over later checks (`"2-0"` reports zero, not an inverted range). -/
theorem C4_zero_is_distinct_error :
    parse_positions ("0".data) = Except.error zeroMsg ∧
    parse_positions ("0-1".data) = Except.error zeroMsg ∧
    parse_positions ("2-0".data) = Except.error zeroMsg ∧
    parse_positions ("+0".data) = Except.error (illegalListValue ("+0".data)) ∧
    zeroMsg ≠ illegalListValue ("0".data) ∧
    zeroMsg ≠ illegalListValue ("0-1".data) ∧
    (∀ s, (startsWithChar s '-' || startsWithChar s '+' ||
        endsWithChar s '-' || endsWithChar s '+') = false →
      rustParseUsize s = some 0 →
      parse_num s = Except.error zeroMsg) :=
  ⟨by rfl, by rfl, by rfl, by rfl, by decide, by decide, parse_num_zero⟩

/-- C4 witness: the zero rule applied at the concrete component `"0"`. -/
theorem C4_zero_is_distinct_error_witness :
    parse_num ("0".data) = Except.error zeroMsg :=
  C4_zero_is_distinct_error.2.2.2.2.2.2 ("0".data) (by rfl) (by rfl)

/-- C5 counterexample: the code emits "First number in range (2) must be
lower than second number (1)" with a capital F, which is not the message
the claim quotes. -/
theorem C5_counterexample :
    parse_positions ("2-1".data) =
      Except.error
        "First number in range (2) must be lower than second number (1)" ∧
    "First number in range (2) must be lower than second number (1)" ≠
      "first number in range (2) must be lower than second number (1)" :=
  ⟨by rfl, by decide⟩

/-- C5 (amended): a range item `N-M` whose two components parse as
positive numbers with `M <= N` fails with an error distinct from every
illegal-value error, whose message names both bounds:
"First number in range (N) must be lower than second number (M)"
(the code capitalises "First"). -/
theorem C5_inverted_range_error (a b : List Char) (n m : Nat)
    (ha : parse_num a = Except.ok n) (hb : parse_num b = Except.ok m)
    (hmn : m ≤ n) :
    parse_positions (a ++ '-' :: b) = Except.error (rangeMsg n m) ∧
    ∀ v, rangeMsg n m ≠ illegalListValue v := by
  refine ⟨?_, rangeMsg_ne_illegalListValue n m⟩
  obtain ⟨hane, hadig, -, -⟩ := parse_num_ok a n ha
  obtain ⟨hbne, hbdig, -, -⟩ := parse_num_ok b m hb
  have hnc : ∀ c ∈ (a ++ '-' :: b), c ≠ ',' := by
    intro c hc
    rcases List.mem_append.mp hc with h | h
    · exact isDigit_ne_comma c (hadig c h)
    · rcases List.mem_cons.mp h with rfl | h
      · decide
      · exact isDigit_ne_comma c (hbdig c h)
  have hne2 : (a ++ '-' :: b) ≠ [] := by simp
  rw [parse_positions_single_part _ hne2 hnc,
    parsePositionsItem_range a b n m ha hb, if_pos hmn]

/-- C5 witness: the amended rule applied at `"2-1"`. -/
theorem C5_inverted_range_error_witness :
    parse_positions ("2".data ++ '-' :: "1".data) =
      Except.error (rangeMsg 2 1) :=
  (C5_inverted_range_error ("2".data) ("1".data) 2 1
    (by rfl) (by rfl) (by omega)).1

/-- C6: `parse_positions` rejects every malformed list with an
illegal-value error: the empty string; a leading or trailing comma
(naming the entire original string); a token that starts or ends with
`-` (naming that token); a numeric component with a leading or trailing
sign or that fails to parse (naming the failing substring, as in
`"1-a"`); and an item with more than one `-`-separated component
(naming the full item). -/
theorem C6_illegal_value_errors :
    parse_positions [] = Except.error (illegalListValue []) ∧
    (∀ arg, startsWithChar arg ',' = true →
      parse_positions arg = Except.error (illegalListValue arg)) ∧
    (∀ arg, endsWithChar arg ',' = true →
      parse_positions arg = Except.error (illegalListValue arg)) ∧
    (∀ part, (startsWithChar part '-' || endsWithChar part '-') = true →
      parsePositionsItem part = Except.error (illegalListValue part)) ∧
    (∀ s, (startsWithChar s '-' || startsWithChar s '+' ||
        endsWithChar s '-' || endsWithChar s '+') = false →
      rustParseUsize s = none →
      parse_num s = Except.error (illegalListValue s)) ∧
    (∀ part x y z tl, startsWithChar part '-' = false →
      endsWithChar part '-' = false → splitChar '-' part = x :: y :: z :: tl →
      parsePositionsItem part = Except.error (illegalListValue part)) ∧
    parse_positions (",".data) = Except.error (illegalListValue (",".data)) ∧
    parse_positions ("1,".data) = Except.error (illegalListValue ("1,".data)) ∧
    parse_positions ("1-".data) = Except.error (illegalListValue ("1-".data)) ∧
    parse_positions ("-".data) = Except.error (illegalListValue ("-".data)) ∧
    parse_positions ("-5".data) = Except.error (illegalListValue ("-5".data)) ∧
    parse_positions ("5-".data) = Except.error (illegalListValue ("5-".data)) ∧
    parse_positions ("1-2-3".data) =
      Except.error (illegalListValue ("1-2-3".data)) ∧
    parse_positions ("1-a".data) = Except.error (illegalListValue ("a".data)) ∧
    parse_positions ("+1".data) = Except.error (illegalListValue ("+1".data)) := by
  refine ⟨by rfl, ?_, ?_, parsePositionsItem_dash, parse_num_none, ?_,
    by rfl, by rfl, by rfl, by rfl, by rfl, by rfl, by rfl, by rfl, by rfl⟩
  · intro arg h
    unfold parse_positions
    rw [if_pos (by simp [h])]
  · intro arg h
    unfold parse_positions
    rw [if_pos (by simp [h])]
  · intro part x y z tl hs he hsp
    unfold parsePositionsItem
    rw [if_neg (by simp [hs, he]), hsp]

/-- C6 witness: the leading-comma rule applied at `",1"`, naming the
entire original string. -/
theorem C6_illegal_value_errors_witness :
    parse_positions (",1".data) = Except.error (illegalListValue (",1".data)) :=
  C6_illegal_value_errors.2.1 (",1".data) (by rfl)

/-- C1 counterexample: the letter é (U+00E9) is a delimiter argument of
exactly one character, yet `parse_config` rejects it, because the code
compares the UTF-8 byte length (`str::len`), not the character count. -/
theorem C1_counterexample :
    [Char.ofNat 0xE9].length = 1 ∧
    parse_config_delimiter [Char.ofNat 0xE9] =
      Except.error ("kat: bad delimiter") :=
  ⟨rfl, by rfl⟩

/-- C1 (amended): `parse_config` fails with the fatal configuration
error "kat: bad delimiter" exactly when the delimiter argument's UTF-8
byte length is not one, and accepts any one-byte argument as that byte
(the default being tab); a single multi-byte character is rejected. -/
theorem C1_delimiter_byte_length :
    (∀ d, parse_config_delimiter d = Except.error ("kat: bad delimiter") ↔
      (utf8Encode d).length ≠ 1) ∧
    (∀ d b, utf8Encode d = [b] → parse_config_delimiter d = Except.ok b) ∧
    parse_config_delimiter ['\t'] = Except.ok 9 := by
  refine ⟨?_, ?_, by rfl⟩
  · intro d
    unfold parse_config_delimiter
    by_cases h : (utf8Encode d).length ≠ 1
    · rw [if_pos h]
      simp [h]
    · rw [if_neg h]
      simp [h]
  · intro d b h
    unfold parse_config_delimiter
    rw [h]
    simp

/-- C1 witness: the amended rule applied at the one-byte delimiter
`"x"`. -/
theorem C1_delimiter_byte_length_witness :
    parse_config_delimiter ['x'] = Except.ok 120 :=
  C1_delimiter_byte_length.2.1 ['x'] 120 (by rfl)

/-- C7: the index-set builder is total and produces a set containing an
index `i` iff some range in the positions contains `i`; overlapping
ranges such as `[0,3)` and `[2,5)` are unioned without double-counting,
and every extractor's output is a sublist of its input, so each selected
position is emitted at most once. -/
theorem C7_index_set_union :
    (∀ positions i, i ∈ unique_indices positions ↔
      ∃ r ∈ positions, r.1 ≤ i ∧ i < r.2) ∧
    unique_indices [(0, 3), (2, 5)] = unique_indices [(0, 5)] ∧
    (∀ (α : Type) (l : List α) (positions : List (Nat × Nat)),
      List.Sublist (selectIdx (unique_indices positions) 0 l) l) :=
  ⟨mem_unique_indices, by decide,
    fun _ l positions => selectIdx_sublist (unique_indices positions) 0 l⟩

/-- C8: the Bytes extractor retains exactly the bytes whose zero-based
offsets are in the index set, in input order, and decodes them lossily:
the decode is total, restores any valid UTF-8 encoding exactly, always
yields valid scalar values, and substitutes the replacement marker when
a selection straddles an encoding boundary (byte 2 of the 3-byte "€"),
instead of raising a decode error. -/
theorem C8_bytes_lossy_decode :
    (∀ (bs : List Nat) (s : Finset Nat),
      selectIdx s 0 bs = (List.range bs.length).filterMap
        (fun i => if i ∈ s then bs.get? i else none)) ∧
    (∀ t : List Char, utf8DecodeLossy (utf8Encode t) = t) ∧
    (∀ bs : List Nat, ∀ c ∈ utf8DecodeLossy bs, Nat.isValidChar c.toNat) ∧
    bytesLine (unique_indices [(1, 2)]) [Char.ofNat 0x20AC] = [replChar] := by
  refine ⟨?_, utf8DecodeLossy_encode, ?_, by rfl⟩
  · intro bs s
    simpa using selectIdx_eq_filterMap s bs 0
  · intro bs c hc
    exact c.valid

/-- C8 witness: validity of the decoded output at the concrete byte
sequence `[0x41]`. -/
theorem C8_bytes_lossy_decode_witness : Nat.isValidChar ('A').toNat :=
  C8_bytes_lossy_decode.2.2.1 [0x41] 'A' (by decide)

/-- C10: indices at or beyond the end of the line (byte offsets past the
byte length, code-point indices past the character count, column indices
past the field count) are silently ignored by all three extractors: the
output equals the selection restricted to the in-range indices. -/
theorem C10_out_of_range_indices_ignored :
    (∀ (s : Finset Nat) (line : List Char),
      bytesLine s line =
        bytesLine (s ∩ Finset.range (utf8Encode line).length) line) ∧
    (∀ (s : Finset Nat) (line : List Char),
      charsLine s line = charsLine (s ∩ Finset.range line.length) line) ∧
    (∀ (d : Nat) (s : Finset Nat) (line : List Char),
      fieldsLine d s line =
        fieldsLine d (s ∩ Finset.range (csvSplitRecord d line).length) line) := by
  refine ⟨?_, ?_, ?_⟩
  · intro s line
    unfold bytesLine
    rw [← selectIdx_restrict]
  · intro s line
    unfold charsLine
    rw [← selectIdx_restrict]
  · intro d s line
    unfold fieldsLine
    rw [← selectIdx_restrict]

/-- C9: a line (or record) contributing zero selected positions still
produces an empty output line rather than a suppressed one, and each of
the three extractor loops prints exactly one output line per input
line/record. -/
theorem C9_empty_line_not_suppressed :
    (∀ (positions : List (Nat × Nat)) (lines : List (List Char))
        (files : List String) (d : Nat),
      (process_reader (lines.map Except.ok)
          ⟨files, Selector.Bytes positions, d⟩).1.length = lines.length ∧
      (process_reader (lines.map Except.ok)
          ⟨files, Selector.Chars positions, d⟩).1.length = lines.length ∧
      (process_reader (lines.map Except.ok)
          ⟨files, Selector.Fields positions, d⟩).1.length = lines.length) ∧
    (∀ (s : Finset Nat) (line : List Char),
      (∀ i ∈ s, (utf8Encode line).length ≤ i) → bytesLine s line = []) ∧
    (∀ (s : Finset Nat) (line : List Char),
      (∀ i ∈ s, line.length ≤ i) → charsLine s line = []) ∧
    (∀ (d : Nat) (s : Finset Nat) (line : List Char),
      (∀ i ∈ s, (csvSplitRecord d line).length ≤ i) → fieldsLine d s line = []) := by
  have hinter : ∀ (s : Finset Nat) (n : Nat), (∀ i ∈ s, n ≤ i) →
      s ∩ Finset.range n = ∅ := by
    intro s n h
    apply Finset.eq_empty_iff_forall_not_mem.mpr
    intro i hi
    rw [Finset.mem_inter, Finset.mem_range] at hi
    exact absurd hi.2 (by have := h i hi.1; omega)
  refine ⟨?_, ?_, ?_, ?_⟩
  · intro positions lines files d
    refine ⟨?_, ?_, ?_⟩ <;>
      simp [process_reader, lineLoop_map_ok]
  · intro s line h
    unfold bytesLine
    rw [selectIdx_restrict, hinter s _ h, selectIdx_empty]
    rfl
  · intro s line h
    unfold charsLine
    rw [selectIdx_restrict, hinter s _ h, selectIdx_empty]
  · intro d s line h
    unfold fieldsLine
    rw [selectIdx_restrict, hinter s _ h, selectIdx_empty]
    rfl

/-- C9 witness: a line none of whose character indices is selected still
yields the empty output line. -/
theorem C9_empty_line_not_suppressed_witness :
    charsLine ({5} : Finset Nat) ['a', 'b'] = [] :=
  C9_empty_line_not_suppressed.2.2.1 ({5} : Finset Nat) ['a', 'b'] (by decide)

/-- Environment for the C2 counterexample: source "a" opens fine but its
first read fails; source "b" opens fine and yields one line. -/
def envReadFail : String → Except String Reader := fun f =>
  if f = "a" then Except.ok [Except.error ("read failed")]
  else if f = "b" then Except.ok [Except.ok ['x']]
  else Except.error ("no such file")

/-- Configuration selecting byte 1 of the files "a" then "b". -/
def cfgBytesAB : Config := ⟨["a", "b"], Selector.Bytes [(0, 1)], 9⟩

/-- C2 counterexample: when reading source "a" fails mid-stream, `run`
returns that error instead of success, logs nothing (in particular no
message prefixed with the source's name), and never processes the
remaining source "b" — the claim's recovery holds only for open
failures, not read failures. -/
theorem C2_counterexample :
    (run envReadFail cfgBytesAB).result = Except.error ("read failed") ∧
    (run envReadFail cfgBytesAB).stderr = [] ∧
    (run envReadFail cfgBytesAB).stdout = [] :=
  ⟨by rfl, by rfl, by rfl⟩

/-- C2 (amended): per-source OPEN errors are recoverable: for every list
of input sources, a source that fails to open is reported on stderr as
the error prefixed with that source's name and all remaining sources are
still processed, and `run` returns success when only open failures
occur; a failure while reading an opened source, by contrast, aborts
`run` with that error. -/
theorem C2_open_errors_recoverable (env : String → Except String Reader)
    (config : Config)
    (h : ∀ f ∈ config.files, ∀ reader, env f = Except.ok reader →
      ∀ item ∈ reader, ∃ line, item = Except.ok line) :
    (run env config).result = Except.ok () ∧
    (run env config).stderr = config.files.filterMap
      (fun f => match env f with
        | Except.error e => some (f ++ ": " ++ e)
        | Except.ok _ => none) ∧
    (run env config).stdout = config.files.flatMap
      (fun f => match env f with
        | Except.error _ => []
        | Except.ok reader => (process_reader reader config).1) := by
  have main : ∀ fs : List String,
      (∀ f ∈ fs, ∀ reader, env f = Except.ok reader →
        ∀ item ∈ reader, ∃ line, item = Except.ok line) →
      (runLoop env config fs).result = Except.ok () ∧
      (runLoop env config fs).stderr = fs.filterMap
        (fun f => match env f with
          | Except.error e => some (f ++ ": " ++ e)
          | Except.ok _ => none) ∧
      (runLoop env config fs).stdout = fs.flatMap
        (fun f => match env f with
          | Except.error _ => []
          | Except.ok reader => (process_reader reader config).1) := by
    intro fs
    induction fs with
    | nil => exact fun _ => ⟨rfl, rfl, rfl⟩
    | cons f rest ih =>
      intro hh
      obtain ⟨h1, h2, h3⟩ := ih (fun g hg => hh g (by simp [hg]))
      cases he : env f with
      | error e =>
        simp only [runLoop, he, List.filterMap_cons, List.flatMap_cons]
        exact ⟨h1, by simp [h2], by simp [h3]⟩
      | ok reader =>
        have hproc : (process_reader reader config).2 = Except.ok () :=
          process_reader_all_ok reader config (hh f (by simp) reader he)
        simp only [runLoop, he, hproc, List.filterMap_cons, List.flatMap_cons]
        exact ⟨h1, by simp [h2], by simp [h3]⟩
  exact main config.files h

/-- Environment for the C2 witness: "a" opens and reads fine, any other
name fails to open. -/
def envOpenFail : String → Except String Reader := fun f =>
  if f = "a" then Except.ok [Except.ok ['x'], Except.ok []]
  else Except.error ("no such file")

/-- Configuration selecting character 1 of the files "nope" then "a". -/
def cfgCharsNA : Config := ⟨["nope", "a"], Selector.Chars [(0, 1)], 9⟩

/-- C2 witness: with one unopenable source followed by one readable
source, `run` succeeds, logs the open failure prefixed with the source
name, and still processes the later source. -/
theorem C2_open_errors_recoverable_witness :
    (run envOpenFail cfgCharsNA).result = Except.ok () ∧
    (run envOpenFail cfgCharsNA).stderr = ["nope: no such file"] ∧
    (run envOpenFail cfgCharsNA).stdout = [['x'], []] := by
  have h := C2_open_errors_recoverable envOpenFail cfgCharsNA ?hyp
  case hyp =>
    intro f hf reader hr item hi
    simp only [cfgCharsNA, List.mem_cons, List.not_mem_nil, or_false] at hf
    rcases hf with rfl | rfl
    · rw [show envOpenFail ("nope") = Except.error ("no such file") from rfl] at hr
      cases hr
    · rw [show envOpenFail ("a") =
          Except.ok [Except.ok ['x'], Except.ok []] from rfl] at hr
      cases hr
      simp only [List.mem_cons, List.not_mem_nil, or_false] at hi
      rcases hi with rfl | rfl
      · exact ⟨['x'], rfl⟩
      · exact ⟨[], rfl⟩
  refine ⟨h.1, ?_, ?_⟩
  · rw [h.2.1]
    rfl
  · rw [h.2.2]
    rfl

end Kat
